import Mathlib

/-!
Shallow embedding of the `xkcdpwgen` password generator
(`src/main.rs` of harrison-e/cy2550, project 3) and proofs of the
specification's claims about it.

Modelling conventions:
* Rust `usize` values are modelled as `Nat`; `usize::from_str` overflow is
  not modelled (no claim depends on it), but its grammar (optional leading
  `+`, then one or more ASCII digits) is.
* `rand::thread_rng` is modelled as an explicit stream `f : Nat → Nat` of
  raw draws together with a cursor; a draw `gen_range(0..m)` at cursor `k`
  is `f k % m`, which is exactly the set of values `gen_range` can return.
* The word source (`choose_word`, which reads `words.txt` and picks a
  uniformly random line) is modelled as a stream `ws : Nat → String`
  giving the word returned by the k-th call, plus an I/O event recording
  the file read it performs.
* The capitalization loop of `run` is not structurally terminating (the
  rng may collide forever), so it is embedded with explicit fuel; `none`
  means the fuel ran out before the loop finished (or `gen_range` was
  called on an empty range, which panics in Rust).
-/

namespace Xkcd

/-- Value of a list of ASCII digit characters, most significant first. -/
def digitsVal (cs : List Char) : Nat :=
  cs.foldl (fun a c => 10 * a + (c.toNat - 48)) 0

/-- Rust `str::parse::<usize>`: an optional leading `+`, then one or more
ASCII digits; anything else (in particular an empty string, a leading `-`,
or any non-digit character) is an error. -/
def parseUsizeCore (cs : List Char) : Option Nat :=
  if cs = [] then none
  else if cs.all Char.isDigit then some (digitsVal cs)
  else none

/-- Rust `str::parse::<usize>` on a string, handling the optional sign. -/
def parseUsize (s : String) : Option Nat :=
  match s.toList with
  | '+' :: rest => parseUsizeCore rest
  | cs => parseUsizeCore cs

/-- The `Config` struct of `main.rs`. -/
structure Config where
  words : Nat
  caps : Nat
  nums : Nat
  syms : Nat
  help : Bool
  debug : Bool
deriving DecidableEq, Repr

/-- The initial values of the local variables of `Config::new`
(`words = 4`, everything else zero / false). -/
def Config.init : Config :=
  { words := 4, caps := 0, nums := 0, syms := 0, help := false, debug := false }

/-- The argument loop of `Config::new` (`main.rs` lines 127-203), carrying
the current values of the local variables as a `Config` accumulator.
Returns the lines printed by the loop (the `println!` in the unknown-flag
arm) together with the result. -/
def newLoop : List String → Config → List String × Except String Config
  | [], cfg => ([], Except.ok cfg)
  | a :: rest, cfg =>
    if a = "-w" || a = "--words" then
      match rest with
      | [] => ([], Except.error "no parameter for option -w")
      | p :: rest2 =>
        match parseUsize p with
        | some w => newLoop rest2 { cfg with words := w }
        | none => ([], Except.error "invalid parameter for option -w")
    else if a = "-c" || a = "--caps" then
      match rest with
      | [] => ([], Except.error "no parameter for option -c")
      | p :: rest2 =>
        match parseUsize p with
        | some c => newLoop rest2 { cfg with caps := min cfg.words c }
        | none => ([], Except.error "invalid parameter for option -c")
    else if a = "-n" || a = "--numbers" then
      match rest with
      | [] => ([], Except.error "no parameter for option -n")
      | p :: rest2 =>
        match parseUsize p with
        | some v => newLoop rest2 { cfg with nums := v }
        | none => ([], Except.error "invalid parameter for option -n")
    else if a = "-s" || a = "--symbols" then
      match rest with
      | [] => ([], Except.error "no parameter for option -s")
      | p :: rest2 =>
        match parseUsize p with
        | some v => newLoop rest2 { cfg with syms := v }
        | none => ([], Except.error "invalid parameter for option -s")
    else if a = "-h" || a = "--help" then
      newLoop rest { cfg with help := true }
    else if a = "-d" || a = "--debug" then
      newLoop rest { cfg with debug := true }
    else
      (["invalid arg: " ++ a], Except.error "invalid argument")

/-- `Config::new` (`main.rs` lines 113-206): skip `args[0]` (the binary
path) and run the argument loop from the initial local-variable values.
The `n == 1` early return coincides with the loop on an empty tail. -/
def Config.new (args : List String) : List String × Except String Config :=
  newLoop (args.drop 1) Config.init

/-- The argument-parsing part of `main` (`main.rs` lines 16-19): on a
parse error, print `Problem parsing arguments: {err}` and exit with
code 1 (modelled as `none` in place of a configuration). -/
def mainParse (args : List String) : List String × Option Config :=
  match Config.new args with
  | (out, Except.ok c) => (out, some c)
  | (out, Except.error e) => (out ++ ["Problem parsing arguments: " ++ e], none)

/-- Exit code of the parse phase of `main`: `1` on a parse error
(`process::exit(1)`), otherwise parsing succeeded and `run` is invoked. -/
def mainParseExit (args : List String) : Nat :=
  match (Config.new args).2 with
  | Except.ok _ => 0
  | Except.error _ => 1

example : (Config.new ["xkcdpwgen"]).2 = Except.ok Config.init := rfl

example :
    (Config.new ["xkcdpwgen", "-w", "2", "-c", "10"]).2
      = Except.ok { words := 2, caps := 2, nums := 0, syms := 0, help := false, debug := false } :=
  rfl

example :
    (Config.new ["xkcdpwgen", "-c", "10", "-w", "2"]).2
      = Except.ok { words := 2, caps := 4, nums := 0, syms := 0, help := false, debug := false } :=
  rfl

example : (Config.new ["xkcdpwgen", "-w", "abc"]).2
    = Except.error "invalid parameter for option -w" := rfl

example : (Config.new ["xkcdpwgen", "-w", "-3"]).2
    = Except.error "invalid parameter for option -w" := rfl

example : parseUsize "+17" = some 17 := by decide

/-- The `capitalize` helper (`main.rs` lines 226-232): upper-case the
first character, keep the rest; the empty string maps to the empty
string. Words are ASCII, so `char::to_uppercase` is one-to-one here and
is modelled by `Char.toUpper`. -/
def capitalize (s : String) : String :=
  match s.toList with
  | [] => ""
  | f :: rest => String.mk (f.toUpper :: rest)

/-- `rand_digit` (`main.rs` lines 234-236) applied to a raw draw `v`:
`char::from_digit(gen_range(0..10), 10)`, i.e. the character
`'0' + v % 10`. -/
def randDigit (v : Nat) : Char :=
  Char.ofNat (48 + v % 10)

/-- The symbol alphabet of `rand_symbol` (`main.rs` line 239). -/
def symbolAlphabet : List Char :=
  "~!@#$%^&*.:;".toList

/-- `rand_symbol` (`main.rs` lines 238-241) applied to a raw draw `v`:
the character of the symbol alphabet at index `gen_range(0..12)`. -/
def randSymbol (v : Nat) : Char :=
  symbolAlphabet.getD (v % symbolAlphabet.length) '~'

/-- The word-selection loop of `run` (`main.rs` lines 65-67): `words`
calls of `choose_word()`, modelled by the word-source stream `ws`. -/
def wordPhase (ws : Nat → String) (words : Nat) : List String :=
  (List.range words).map ws

/-- The capitalization loop of `run` (`main.rs` lines 70-80). `f` is the
rng stream, `k` the stream cursor, `c` the remaining count, `flags` the
`c_words` vector and `pwd` the password vector. Each iteration draws
`r = gen_range(0..words)`; if `c_words[r]` is already set the draw is
rejected and redrawn (`continue`), otherwise position `r` is marked and
capitalized and `c` decreases. The loop is given explicit `fuel`; `none`
models fuel exhaustion, or the Rust panic of `gen_range(0..0)` when
`words = 0` while `c > 0`. On success it returns the final cursor, the
final `c_words`, the final password, and (as ghost data observing the
loop, in reverse order of execution) the list `ops` of positions on which
a capitalization operation was performed. -/
def capsLoop (f : Nat → Nat) (words : Nat) :
    Nat → Nat → Nat → List Bool → List String → List Nat →
      Option (Nat × List Bool × List String × List Nat)
  | _, k, 0, flags, pwd, ops => some (k, flags, pwd, ops)
  | 0, _, _ + 1, _, _, _ => none
  | fuel + 1, k, c + 1, flags, pwd, ops =>
    if words = 0 then none
    else
      if flags.getD (f k % words) false then
        capsLoop f words fuel (k + 1) (c + 1) flags pwd ops
      else
        capsLoop f words fuel (k + 1) c (flags.set (f k % words) true)
          (pwd.set (f k % words) (capitalize (pwd.getD (f k % words) "")))
          (f k % words :: ops)

/-- One of the two insertion loops of `run` (`main.rs` lines 84-88 and
92-96), parameterized by the token maker (`rand_digit` or `rand_symbol`).
Each iteration draws `r = gen_range(0..=password.len())` at cursor `k`,
then draws the token character at cursor `k + 1`, and inserts the
one-character string at index `r`, shifting later tokens right. Returns
the final cursor and the extended password. -/
def insertLoop (f : Nat → Nat) (tok : Nat → Char) :
    Nat → Nat → List String → Nat × List String
  | 0, k, pwd => (k, pwd)
  | n + 1, k, pwd =>
    insertLoop f tok n (k + 2)
      (pwd.insertIdx (f k % (pwd.length + 1)) (String.mk [tok (f (k + 1))]))

/-- An I/O action performed by the program: a read of the dictionary
file `words.txt`, or a line printed to standard output. -/
inductive IOEvent where
  | readDict : IOEvent
  | printLine : String → IOEvent
deriving DecidableEq

/-- The usage text printed by `run` when `config.help` is set
(`main.rs` lines 32-48). -/
def usageText : String :=
  "usage: xkcdpwgen [-h] [-w WORDS] [-c CAPS] [-n NUMBERS] [-s SYMBOLS]

                Generate a secure, memorable password using the XKCD method

                optional arguments:
                    -h, --help            show this help message and exit
                    -d, --debug           include debug info in the output
                    -w WORDS, --words WORDS
                                          include WORDS words in the password (default=4)
                    -c CAPS, --caps CAPS  capitalize the first letter of CAPS random words
                                          (default=0)
                    -n NUMBERS, --numbers NUMBERS
                                          insert NUMBERS random numbers in the password
                                          (default=0)
                    -s SYMBOLS, --symbols SYMBOLS
                                          insert SYMBOLS random symbols in the password
                                          (default=0)"

/-- The debug lines printed by `run` when `config.debug` is set
(`main.rs` lines 54-58). -/
def debugLines (cfg : Config) : List String :=
  ["--DEBUG--",
   "  words: " ++ toString cfg.words,
   "  caps: " ++ toString cfg.caps,
   "  nums: " ++ toString cfg.nums,
   "  syms: " ++ toString cfg.syms]

/-- The token-assembly part of `run` (`main.rs` lines 61-96): word
selection, then capitalization, then digit insertion, then symbol
insertion, all drawing from the single rng stream `f` in program order.
`none` propagates a capitalization loop that did not finish within
`fuel`. -/
def runTokens (cfg : Config) (ws : Nat → String) (f : Nat → Nat) (fuel : Nat) :
    Option (List String) :=
  let pwd0 := wordPhase ws cfg.words
  match capsLoop f cfg.words fuel 0 cfg.caps (List.replicate cfg.words false) pwd0 [] with
  | none => none
  | some (k, _, pwd1, _) =>
    let numsRes := insertLoop f randDigit cfg.nums k pwd1
    let symsRes := insertLoop f randSymbol cfg.syms numsRes.1 numsRes.2
    some symsRes.2

/-- The printed passphrase (`main.rs` line 99): tokens joined with no
separator. -/
def runOutput (cfg : Config) (ws : Nat → String) (f : Nat → Nat) (fuel : Nat) :
    Option String :=
  (runTokens cfg ws f fuel).map String.join

/-- The I/O trace of `run` (`main.rs` lines 28-101). With `help` set it
prints the usage text and returns. Otherwise it prints the debug lines if
`debug` is set, then performs one `choose_word()` call — and hence one
open-and-read of `words.txt` (`main.rs` lines 209-224) — per word of the
word-selection loop, and finally prints the joined password. The
capitalization and insertion loops perform no I/O. -/
def runTrace (cfg : Config) (ws : Nat → String) (f : Nat → Nat) (fuel : Nat) :
    Option (List IOEvent) :=
  if cfg.help then some [IOEvent.printLine usageText]
  else
    match runTokens cfg ws f fuel with
    | none => none
    | some pwd =>
      some ((if cfg.debug then debugLines cfg else []).map IOEvent.printLine
        ++ List.replicate cfg.words IOEvent.readDict
        ++ [IOEvent.printLine (String.join pwd)])

/-- Number of dictionary reads in a trace. -/
def countReads (tr : List IOEvent) : Nat :=
  tr.countP fun e => match e with
    | IOEvent.readDict => true
    | IOEvent.printLine _ => false

/-- Number of lines written to standard output in a trace. -/
def countWrites (tr : List IOEvent) : Nat :=
  tr.countP fun e => match e with
    | IOEvent.readDict => false
    | IOEvent.printLine _ => true

example :
    runTokens { words := 3, caps := 1, nums := 1, syms := 0, help := false, debug := false }
      (fun n => ["correct", "horse", "battery"].getD n "")
      (fun k => [1, 3, 7].getD k 0) 1
      = some ["correct", "Horse", "battery", "7"] := by decide

example :
    runOutput { words := 3, caps := 1, nums := 1, syms := 0, help := false, debug := false }
      (fun n => ["correct", "horse", "battery"].getD n "")
      (fun k => [1, 3, 7].getD k 0) 1
      = some "correctHorsebattery7" := by decide

/-- A random stream that does not "repeat already-chosen indices forever":
from any cursor position, whenever some index below `words` is still
unmarked, the stream eventually draws an unmarked index. A uniform
independent stream has this property almost surely. -/
def FreshStream (f : Nat → Nat) (words : Nat) : Prop :=
  ∀ (k : Nat) (flags : List Bool), flags.length = words →
    (∃ i, i < words ∧ flags.getD i false = false) →
    ∃ j, k ≤ j ∧ flags.getD (f j % words) false = false

/-! Helper lemmas about lists. -/

lemma getD_set_self {α : Type} (l : List α) (r : Nat) (x d : α) (h : r < l.length) :
    (l.set r x).getD r d = x := by
  induction l generalizing r with
  | nil => simp at h
  | cons a t ih =>
    cases r with
    | zero => rfl
    | succ r => exact ih r (by simpa using h)

lemma getD_set_ne {α : Type} (l : List α) (r i : Nat) (x d : α) (h : i ≠ r) :
    (l.set r x).getD i d = l.getD i d := by
  induction l generalizing r i with
  | nil => simp
  | cons a t ih =>
    cases r with
    | zero =>
      cases i with
      | zero => exact absurd rfl h
      | succ i => rfl
    | succ r =>
      cases i with
      | zero => rfl
      | succ i => exact ih r i (fun hh => h (by rw [hh]))

lemma countP_set_true (l : List Bool) (r : Nat) (h : l.getD r false = false)
    (hr : r < l.length) :
    (l.set r true).countP (fun b => b) = l.countP (fun b => b) + 1 := by
  induction l generalizing r with
  | nil => simp at hr
  | cons a t ih =>
    cases r with
    | zero =>
      have ha : a = false := by simpa using h
      subst ha
      simp [List.countP_cons]
    | succ r =>
      have := ih r (by simpa using h) (by simpa using hr)
      simp only [List.set]
      rw [List.countP_cons, List.countP_cons, this]
      omega

lemma exists_unmarked (l : List Bool) (h : l.countP (fun b => b) < l.length) :
    ∃ i, i < l.length ∧ l.getD i false = false := by
  induction l with
  | nil => simp at h
  | cons a t ih =>
    cases a with
    | false => exact ⟨0, by simp, rfl⟩
    | true =>
      have h' : t.countP (fun b => b) < t.length := by
        simpa [List.countP_cons] using h
      obtain ⟨i, hi, hv⟩ := ih h'
      exact ⟨i + 1, by simpa using hi, hv⟩

lemma insertIdx_eq_take_cons_drop {α : Type} (x : α) :
    ∀ (r : Nat) (l : List α), r ≤ l.length →
      l.insertIdx r x = l.take r ++ x :: l.drop r
  | 0, l, _ => by simp
  | r + 1, [], h => by simp at h
  | r + 1, a :: t, h => by
    simp only [List.insertIdx_succ_cons, List.take, List.drop, List.cons_append]
    rw [insertIdx_eq_take_cons_drop x r t (by simpa using h)]

/-! Helper lemmas about `insertLoop`. -/

lemma insertLoop_length (f : Nat → Nat) (tok : Nat → Char) (n : Nat) :
    ∀ (k : Nat) (pwd : List String),
      ((insertLoop f tok n k pwd).2).length = pwd.length + n := by
  induction n with
  | zero => intro k pwd; rfl
  | succ n ih =>
    intro k pwd
    have hr : f k % (pwd.length + 1) ≤ pwd.length :=
      Nat.lt_succ_iff.mp (Nat.mod_lt _ (Nat.succ_pos _))
    rw [insertLoop, ih, List.length_insertIdx _ _ hr]
    omega

lemma insertLoop_mem (f : Nat → Nat) (tok : Nat → Char) (n : Nat) :
    ∀ (k : Nat) (pwd : List String) (s : String),
      s ∈ (insertLoop f tok n k pwd).2 → s ∈ pwd ∨ ∃ v, s = String.mk [tok v] := by
  induction n with
  | zero => intro k pwd s hs; exact Or.inl hs
  | succ n ih =>
    intro k pwd s hs
    rw [insertLoop] at hs
    rcases ih _ _ _ hs with h | h
    · rw [List.mem_insertIdx (Nat.lt_succ_iff.mp (Nat.mod_lt _ (Nat.succ_pos _)))] at h
      rcases h with h | h
      · exact Or.inr ⟨f (k + 1), h⟩
      · exact Or.inl h
    · exact Or.inr h

/-! Helper lemmas about `capsLoop`. -/

lemma capsLoop_det (f : Nat → Nat) (words : Nat) (fuel₁ : Nat) :
    ∀ (fuel₂ k c : Nat) (flags : List Bool) (pwd : List String) (ops : List Nat)
      (r₁ r₂ : Nat × List Bool × List String × List Nat),
      capsLoop f words fuel₁ k c flags pwd ops = some r₁ →
      capsLoop f words fuel₂ k c flags pwd ops = some r₂ → r₁ = r₂ := by
  induction fuel₁ with
  | zero =>
    intro fuel₂ k c flags pwd ops r₁ r₂ h₁ h₂
    cases c with
    | zero =>
      simp only [capsLoop] at h₁ h₂
      rw [← Option.some_inj.mp h₁, ← Option.some_inj.mp h₂]
    | succ c => simp [capsLoop] at h₁
  | succ fuel ih =>
    intro fuel₂ k c flags pwd ops r₁ r₂ h₁ h₂
    cases c with
    | zero =>
      simp only [capsLoop] at h₁ h₂
      rw [← Option.some_inj.mp h₁, ← Option.some_inj.mp h₂]
    | succ c =>
      cases fuel₂ with
      | zero => simp [capsLoop] at h₂
      | succ fuel₂ =>
        rw [capsLoop] at h₁ h₂
        by_cases hw : words = 0
        · rw [if_pos hw] at h₁; cases h₁
        · rw [if_neg hw] at h₁ h₂
          by_cases hf : flags.getD (f k % words) false = true
          · rw [if_pos hf] at h₁ h₂
            exact ih _ _ _ _ _ _ _ _ h₁ h₂
          · rw [if_neg hf] at h₁ h₂
            exact ih _ _ _ _ _ _ _ _ h₁ h₂

lemma capsLoop_deficit (f : Nat → Nat) (words : Nat) (fuel : Nat) :
    ∀ (k c : Nat) (flags : List Bool) (pwd : List String) (ops : List Nat),
      flags.length = words → words < flags.countP (fun b => b) + c →
      capsLoop f words fuel k c flags pwd ops = none := by
  induction fuel with
  | zero =>
    intro k c flags pwd ops hlen hcnt
    cases c with
    | zero =>
      exfalso
      have := List.countP_le_length (p := fun b => b) (l := flags)
      omega
    | succ c => simp [capsLoop]
  | succ fuel ih =>
    intro k c flags pwd ops hlen hcnt
    cases c with
    | zero =>
      exfalso
      have := List.countP_le_length (p := fun b => b) (l := flags)
      omega
    | succ c =>
      rw [capsLoop]
      by_cases hw : words = 0
      · rw [if_pos hw]
      · rw [if_neg hw]
        by_cases hf : flags.getD (f k % words) false = true
        · rw [if_pos hf]
          exact ih _ _ _ _ _ hlen hcnt
        · rw [if_neg hf]
          have hr : f k % words < flags.length := by
            rw [hlen]; exact Nat.mod_lt _ (Nat.pos_of_ne_zero hw)
          have hfalse : flags.getD (f k % words) false = false :=
            Bool.eq_false_iff.mpr hf
          have hcp := countP_set_true flags (f k % words) hfalse hr
          apply ih
          · simpa using hlen
          · rw [hcp]; omega

lemma capsLoop_spec (f : Nat → Nat) (words : Nat) (fuel : Nat) :
    ∀ (k c : Nat) (flags : List Bool) (pwd : List String) (ops : List Nat)
      (k' : Nat) (flags' : List Bool) (pwd' : List String) (ops' : List Nat),
      capsLoop f words fuel k c flags pwd ops = some (k', flags', pwd', ops') →
      flags.length = words → pwd.length = words →
      flags'.length = words ∧ pwd'.length = words ∧
      ∃ new : List Nat,
        ops' = new ++ ops ∧ new.length = c ∧ new.Nodup ∧
        (∀ i ∈ new, i < words ∧ flags.getD i false = false) ∧
        (∀ i, flags'.getD i false = true ↔ (flags.getD i false = true ∨ i ∈ new)) ∧
        (∀ i, pwd'.getD i "" = if i ∈ new then capitalize (pwd.getD i "") else pwd.getD i "") := by
  induction fuel with
  | zero =>
    intro k c flags pwd ops k' flags' pwd' ops' h hlen hplen
    cases c with
    | zero =>
      simp only [capsLoop, Option.some_inj, Prod.mk.injEq] at h
      obtain ⟨hk, hfl, hpw, hop⟩ := h
      subst hfl; subst hpw; subst hop
      exact ⟨hlen, hplen, [], by simp, rfl, List.nodup_nil, by simp, by simp, by simp⟩
    | succ c => simp [capsLoop] at h
  | succ fuel ih =>
    intro k c flags pwd ops k' flags' pwd' ops' h hlen hplen
    cases c with
    | zero =>
      simp only [capsLoop, Option.some_inj, Prod.mk.injEq] at h
      obtain ⟨hk, hfl, hpw, hop⟩ := h
      subst hfl; subst hpw; subst hop
      exact ⟨hlen, hplen, [], by simp, rfl, List.nodup_nil, by simp, by simp, by simp⟩
    | succ c =>
      rw [capsLoop] at h
      by_cases hw : words = 0
      · rw [if_pos hw] at h; cases h
      · rw [if_neg hw] at h
        set r := f k % words with hrdef
        have hrlt : r < words := Nat.mod_lt _ (Nat.pos_of_ne_zero hw)
        by_cases hf : flags.getD r false = true
        · rw [if_pos hf] at h
          exact ih _ _ _ _ _ _ _ _ _ h hlen hplen
        · rw [if_neg hf] at h
          have hfr : flags.getD r false = false := Bool.eq_false_iff.mpr hf
          obtain ⟨hflen', hpwlen', new₁, hops₁, hnl₁, hnd₁, hmem₁, hfc₁, hpc₁⟩ :=
            ih _ _ _ _ _ _ _ _ _ h (by simpa using hlen) (by simpa using hplen)
          have hrnot : r ∉ new₁ := by
            intro hm
            have h2 := (hmem₁ r hm).2
            rw [getD_set_self _ _ _ _ (by rw [hlen]; exact hrlt)] at h2
            exact Bool.noConfusion h2
          refine ⟨hflen', hpwlen', new₁ ++ [r], ?_, ?_, ?_, ?_, ?_, ?_⟩
          · rw [hops₁]; simp
          · simp [hnl₁]
          · rw [List.nodup_append_comm]
            exact List.nodup_cons.mpr ⟨hrnot, hnd₁⟩
          · intro i hi
            rcases List.mem_append.mp hi with hi₁ | hi₂
            · obtain ⟨hlt, hfl⟩ := hmem₁ i hi₁
              have hineq : i ≠ r := by
                intro he
                rw [he, getD_set_self _ _ _ _ (by rw [hlen]; exact hrlt)] at hfl
                exact Bool.noConfusion hfl
              rw [getD_set_ne _ _ _ _ _ hineq] at hfl
              exact ⟨hlt, hfl⟩
            · rw [List.mem_singleton.mp hi₂]
              exact ⟨hrlt, hfr⟩
          · intro i
            rw [hfc₁ i]
            by_cases hir : i = r
            · subst hir
              rw [getD_set_self _ _ _ _ (by rw [hlen]; exact hrlt)]
              simp
            · rw [getD_set_ne _ _ _ _ _ hir]
              simp [List.mem_append, hir]
          · intro i
            rw [hpc₁ i]
            by_cases hir : i = r
            · subst hir
              rw [getD_set_self _ _ _ _ (by rw [hplen]; exact hrlt)]
              simp [hrnot]
            · rw [getD_set_ne _ _ _ _ _ hir]
              simp [List.mem_append, hir]

lemma capsLoop_term (f : Nat → Nat) (words : Nat) (hfresh : FreshStream f words) :
    ∀ (c : Nat) (flags : List Bool) (pwd : List String) (ops : List Nat) (k : Nat),
      flags.length = words → flags.countP (fun b => b) + c ≤ words →
      ∃ fuel res, capsLoop f words fuel k c flags pwd ops = some res := by
  intro c
  induction c with
  | zero => exact fun flags pwd ops k _ _ => ⟨0, (k, flags, pwd, ops), rfl⟩
  | succ c ihc =>
    intro flags pwd ops k hlen hcnt
    have hw : 0 < words := by omega
    have hwne : words ≠ 0 := Nat.pos_iff_ne_zero.mp hw
    have takeStep : ∀ k₀ : Nat, flags.getD (f k₀ % words) false = false →
        ∃ fuel res, capsLoop f words fuel k₀ (c + 1) flags pwd ops = some res := by
      intro k₀ hk₀
      have hrlt : f k₀ % words < flags.length := by
        rw [hlen]; exact Nat.mod_lt _ hw
      obtain ⟨fuel, res, hres⟩ :=
        ihc (flags.set (f k₀ % words) true)
          (pwd.set (f k₀ % words) (capitalize (pwd.getD (f k₀ % words) "")))
          (f k₀ % words :: ops) (k₀ + 1)
          (by simpa using hlen)
          (by rw [countP_set_true flags (f k₀ % words) hk₀ hrlt]; omega)
      refine ⟨fuel + 1, res, ?_⟩
      rw [capsLoop, if_neg hwne, if_neg (by rw [hk₀]; exact Bool.false_ne_true)]
      exact hres
    have key : ∀ (d k₀ : Nat), flags.getD (f (k₀ + d) % words) false = false →
        ∃ fuel res, capsLoop f words fuel k₀ (c + 1) flags pwd ops = some res := by
      intro d
      induction d with
      | zero => exact fun k₀ hk₀ => takeStep k₀ hk₀
      | succ d ihd =>
        intro k₀ hk₀
        by_cases hcur : flags.getD (f k₀ % words) false = true
        · obtain ⟨fuel, res, hres⟩ :=
            ihd (k₀ + 1) (by rw [show k₀ + 1 + d = k₀ + (d + 1) from by omega]; exact hk₀)
          refine ⟨fuel + 1, res, ?_⟩
          rw [capsLoop, if_neg hwne, if_pos hcur]
          exact hres
        · exact takeStep k₀ (Bool.eq_false_iff.mpr hcur)
    have hunmark : ∃ i, i < words ∧ flags.getD i false = false := by
      have hlt : flags.countP (fun b => b) < flags.length := by rw [hlen]; omega
      obtain ⟨i, hi, hv⟩ := exists_unmarked flags hlt
      exact ⟨i, by rw [← hlen]; exact hi, hv⟩
    obtain ⟨j, hkj, hfj⟩ := hfresh k flags hlen hunmark
    exact key (j - k) k (by rw [show k + (j - k) = j from by omega]; exact hfj)

/-! The claims. -/

/-- C1: the claim states that every configuration accepted by
`Config::new` satisfies `caps ≤ words` regardless of the order of the
`-w` and `-c` flags. This is false on the code: `Config::new` clamps
`caps` against the value `words` has at the moment `-c` is parsed, so
`-c 10 -w 2` is accepted with `caps = 4 > words = 2`; the capitalization
loop of `run` then never finishes (in the model, `runTokens` is `none`
for every fuel; the real program loops forever redrawing indices). -/
theorem C1_clamp_order_code_bug :
    (Config.new ["xkcdpwgen", "-c", "10", "-w", "2"]).2
      = Except.ok { words := 2, caps := 4, nums := 0, syms := 0, help := false, debug := false }
    ∧ ¬(4 ≤ 2)
    ∧ (∀ (ws : Nat → String) (f : Nat → Nat) (fuel : Nat),
        runTokens { words := 2, caps := 4, nums := 0, syms := 0, help := false, debug := false }
          ws f fuel = none) := by
  refine ⟨rfl, by decide, ?_⟩
  intro ws f fuel
  simp only [runTokens]
  rw [capsLoop_deficit f 2 fuel 0 4 (List.replicate 2 false) (wordPhase ws 2) []
    (by decide) (by decide)]

/-- C2: for every valid configuration (`caps ≤ words`) and every word
source and random stream, a completed run produces exactly
`words + nums + syms` tokens. -/
theorem C2_token_length (cfg : Config) (ws : Nat → String) (f : Nat → Nat) (fuel : Nat)
    (out : List String) (_hvalid : cfg.caps ≤ cfg.words)
    (h : runTokens cfg ws f fuel = some out) :
    out.length = cfg.words + cfg.nums + cfg.syms := by
  simp only [runTokens] at h
  rcases hcl : capsLoop f cfg.words fuel 0 cfg.caps (List.replicate cfg.words false)
      (wordPhase ws cfg.words) [] with _ | ⟨k, flags', pwd1, ops'⟩
  · rw [hcl] at h; cases h
  · rw [hcl] at h
    obtain ⟨-, hplen, -⟩ :=
      capsLoop_spec f cfg.words fuel 0 cfg.caps _ _ _ _ _ _ _ hcl (by simp)
        (by simp [wordPhase])
    have h2 : (insertLoop f randSymbol cfg.syms
        (insertLoop f randDigit cfg.nums k pwd1).1
        (insertLoop f randDigit cfg.nums k pwd1).2).2 = out := by
      simpa using h
    rw [← h2, insertLoop_length, insertLoop_length, hplen]

/-- Witness for C2 at the spec's end-to-end example. -/
theorem C2_token_length_witness :
    (["correct", "Horse", "battery", "7"] : List String).length = 3 + 1 + 0 :=
  C2_token_length
    { words := 3, caps := 1, nums := 1, syms := 0, help := false, debug := false }
    (fun n => ["correct", "horse", "battery"].getD n "")
    (fun k => [1, 3, 7].getD k 0) 1
    ["correct", "Horse", "battery", "7"] (by decide) (by rfl)

/-- C3: the capitalization step draws over the full index range
`[0, words)` each time, skips and redraws on collision without changing
any state except the stream cursor, and — whenever `caps ≤ words` — it
terminates for every random stream that does not avoid the unmarked
indices forever (the almost-sure case for a uniform stream). -/
theorem C3_reject_retry_terminates (f : Nat → Nat) (words caps : Nat)
    (hcw : caps ≤ words) (hfresh : FreshStream f words) :
    (∀ k, 0 < words → f k % words < words) ∧
    (∀ (fuel k c : Nat) (flags : List Bool) (pwd : List String) (ops : List Nat),
      words ≠ 0 → flags.getD (f k % words) false = true →
      capsLoop f words (fuel + 1) k (c + 1) flags pwd ops
        = capsLoop f words fuel (k + 1) (c + 1) flags pwd ops) ∧
    (∀ pwd : List String, ∃ fuel res,
      capsLoop f words fuel 0 caps (List.replicate words false) pwd [] = some res) := by
  refine ⟨fun k hw => Nat.mod_lt _ hw, ?_, ?_⟩
  · intro fuel k c flags pwd ops hwne hcol
    rw [capsLoop, if_neg hwne, if_pos hcol]
  · intro pwd
    apply capsLoop_term f words hfresh caps (List.replicate words false) pwd [] 0
    · simp
    · have hz : (List.replicate words false).countP (fun b => b) = 0 := by
        simp [List.countP_replicate]
      rw [hz]
      omega

/-- Witness for C3: a constant stream over one word position. -/
theorem C3_reject_retry_terminates_witness :
    ∃ fuel res,
      capsLoop (fun _ => 0) 1 fuel 0 1 (List.replicate 1 false) ["a"] [] = some res := by
  have hfresh : FreshStream (fun _ => 0) 1 := by
    intro k flags hlen hex
    obtain ⟨i, hi, hv⟩ := hex
    have hi0 : i = 0 := by omega
    exact ⟨k, Nat.le_refl k, by simpa [hi0] using hv⟩
  exact (C3_reject_retry_terminates (fun _ => 0) 1 1 (by decide) hfresh).2.2 ["a"]

/-- C4: when the capitalization loop completes, the list of positions it
operated on has no duplicates, has length exactly `min caps words`, lies
inside `[0, words)`, and the final password holds `capitalize` of the
original word exactly at those positions and the original word
elsewhere. -/
theorem C4_capitalization_count (cfg : Config) (ws : Nat → String) (f : Nat → Nat)
    (fuel k' : Nat) (flags' : List Bool) (pwd' : List String) (ops' : List Nat)
    (h : capsLoop f cfg.words fuel 0 cfg.caps (List.replicate cfg.words false)
      (wordPhase ws cfg.words) [] = some (k', flags', pwd', ops')) :
    ops'.Nodup ∧
    ops'.length = min cfg.caps cfg.words ∧
    (∀ i ∈ ops', i < cfg.words) ∧
    (∀ i ∈ ops', pwd'.getD i "" = capitalize ((wordPhase ws cfg.words).getD i "")) ∧
    (∀ i ∉ ops', pwd'.getD i "" = (wordPhase ws cfg.words).getD i "") := by
  obtain ⟨hflen, hplen, new, hops, hnl, hnd, hmem, hfc, hpc⟩ :=
    capsLoop_spec f cfg.words fuel 0 cfg.caps _ _ _ _ _ _ _ h (by simp)
      (by simp [wordPhase])
  rw [List.append_nil] at hops
  subst hops
  have hbound : ops'.length ≤ cfg.words := by
    have h1 : ops'.toFinset.card = ops'.length := List.toFinset_card_of_nodup hnd
    have h2 : ops'.toFinset ⊆ Finset.range cfg.words := by
      intro x hx
      exact Finset.mem_range.mpr ((hmem x (List.mem_toFinset.mp hx)).1)
    calc ops'.length = ops'.toFinset.card := h1.symm
      _ ≤ (Finset.range cfg.words).card := Finset.card_le_card h2
      _ = cfg.words := Finset.card_range _
  refine ⟨hnd, ?_, fun i hi => (hmem i hi).1,
    fun i hi => by rw [hpc i, if_pos hi],
    fun i hi => by rw [hpc i, if_neg hi]⟩
  rw [hnl]
  rw [hnl] at hbound
  exact (Nat.min_eq_left hbound).symm

/-- Witness for C4 at the spec's end-to-end example. -/
theorem C4_capitalization_count_witness :
    ([1] : List Nat).Nodup ∧
    ([1] : List Nat).length = min 1 3 ∧
    (∀ i ∈ ([1] : List Nat), i < 3) ∧
    (∀ i ∈ ([1] : List Nat),
      (["correct", "Horse", "battery"] : List String).getD i ""
        = capitalize
          ((wordPhase (fun n => ["correct", "horse", "battery"].getD n "") 3).getD i "")) ∧
    (∀ i ∉ ([1] : List Nat),
      (["correct", "Horse", "battery"] : List String).getD i ""
        = (wordPhase (fun n => ["correct", "horse", "battery"].getD n "") 3).getD i "") :=
  C4_capitalization_count
    { words := 3, caps := 1, nums := 0, syms := 0, help := false, debug := false }
    (fun n => ["correct", "horse", "battery"].getD n "")
    (fun k => [1, 3, 7].getD k 0)
    1 1 [false, true, false] ["correct", "Horse", "battery"] [1] (by rfl)

/-- C5: each insertion draws its index over `[0, currentLength]`
inclusive (the draw is `f k % (length + 1)`, hence at most the current
length), inserts at that index shifting later tokens right (the
`take`/`drop` decomposition), each iteration operates on the sequence
grown by the previous one, and in `run` the symbol-insertion loop
receives the sequence already extended by the digit-insertion loop. -/
theorem C5_insertion_mechanics (f : Nat → Nat) (tok : Nat → Char) (n k : Nat)
    (pwd : List String) :
    f k % (pwd.length + 1) ≤ pwd.length ∧
    insertLoop f tok (n + 1) k pwd
      = insertLoop f tok n (k + 2)
          (pwd.insertIdx (f k % (pwd.length + 1)) (String.mk [tok (f (k + 1))])) ∧
    (∀ (r : Nat) (x : String) (l : List String), r ≤ l.length →
      l.insertIdx r x = l.take r ++ x :: l.drop r) ∧
    (∀ (cfg : Config) (ws : Nat → String) (g : Nat → Nat) (fuel k₁ : Nat)
        (flags : List Bool) (pwd1 : List String) (ops : List Nat),
      capsLoop g cfg.words fuel 0 cfg.caps (List.replicate cfg.words false)
          (wordPhase ws cfg.words) [] = some (k₁, flags, pwd1, ops) →
      runTokens cfg ws g fuel
        = some (insertLoop g randSymbol cfg.syms
            (insertLoop g randDigit cfg.nums k₁ pwd1).1
            (insertLoop g randDigit cfg.nums k₁ pwd1).2).2) := by
  refine ⟨Nat.lt_succ_iff.mp (Nat.mod_lt _ (Nat.succ_pos _)), rfl,
    fun r x l hr => insertIdx_eq_take_cons_drop x r l hr, ?_⟩
  intro cfg ws g fuel k₁ flags pwd1 ops h
  simp only [runTokens]
  rw [h]

/-- Witness for C5: a digit insertion at index 1 of a two-token
sequence, the `take`/`drop` decomposition there, and the phase order on
the spec's end-to-end example. -/
theorem C5_insertion_mechanics_witness :
    1 % 3 ≤ 2 ∧
    insertLoop (fun k => [1, 7].getD k 0) randDigit 1 0 ["a", "b"]
      = insertLoop (fun k => [1, 7].getD k 0) randDigit 0 2 ["a", "7", "b"] ∧
    (["a", "b"] : List String).insertIdx 1 "7"
      = (["a", "b"] : List String).take 1 ++ "7" :: (["a", "b"] : List String).drop 1 ∧
    runTokens { words := 3, caps := 1, nums := 1, syms := 0, help := false, debug := false }
      (fun n => ["correct", "horse", "battery"].getD n "")
      (fun k => [1, 3, 7].getD k 0) 1
      = some ["correct", "Horse", "battery", "7"] := by
  have h1 := C5_insertion_mechanics (fun k => [1, 7].getD k 0) randDigit 0 0 ["a", "b"]
  have h2 := C5_insertion_mechanics (fun k => [1, 3, 7].getD k 0) randDigit 0 0 []
  exact ⟨h1.1, h1.2.1, h1.2.2.1 1 "7" ["a", "b"] (by decide),
    h2.2.2.2 { words := 3, caps := 1, nums := 1, syms := 0, help := false, debug := false }
      (fun n => ["correct", "horse", "battery"].getD n "")
      (fun k => [1, 3, 7].getD k 0) 1 1 [false, true, false]
      ["correct", "Horse", "battery"] [1] (by rfl)⟩

/-- C6: every digit token comes from `0123456789`, every symbol token
from exactly the 12-character alphabet; each alphabet character is
reachable by some draw; and every token the insertion loops add to the
sequence is a one-character string made by the token maker. -/
theorem C6_token_alphabets :
    (∀ v : Nat, randDigit v ∈ "0123456789".toList) ∧
    (∀ c ∈ "0123456789".toList, ∃ v, v < 10 ∧ randDigit v = c) ∧
    (∀ v : Nat, randSymbol v ∈ "~!@#$%^&*.:;".toList) ∧
    (∀ c ∈ "~!@#$%^&*.:;".toList, ∃ v, v < 12 ∧ randSymbol v = c) ∧
    (∀ (f : Nat → Nat) (tok : Nat → Char) (n k : Nat) (pwd : List String) (s : String),
      s ∈ (insertLoop f tok n k pwd).2 → s ∈ pwd ∨ ∃ v, s = String.mk [tok v]) := by
  refine ⟨?_, by decide, ?_, by decide,
    fun f tok n k pwd s hs => insertLoop_mem f tok n k pwd s hs⟩
  · intro v
    have h : v % 10 < 10 := Nat.mod_lt _ (by decide)
    simp only [randDigit]
    generalize v % 10 = m at h
    interval_cases m <;> decide
  · intro v
    have h : v % symbolAlphabet.length < 12 := by
      rw [show symbolAlphabet.length = 12 from rfl]
      exact Nat.mod_lt _ (by decide)
    simp only [randSymbol]
    generalize v % symbolAlphabet.length = m at h
    interval_cases m <;> decide

/-- Witness for C6 on the bounded-existence and insertion conjuncts. -/
theorem C6_token_alphabets_witness :
    (∃ v, v < 10 ∧ randDigit v = '7') ∧
    (∃ v, v < 12 ∧ randSymbol v = '@') ∧
    (("7" : String) ∈ (["a", "b"] : List String)
      ∨ ∃ v, ("7" : String) = String.mk [randDigit v]) := by
  have h := C6_token_alphabets
  refine ⟨h.2.1 '7' (by decide), h.2.2.2.1 '@' (by decide), ?_⟩
  exact h.2.2.2.2 (fun k => [1, 7].getD k 0) randDigit 1 0 ["a", "b"] "7" (by decide)

/-- C7 counterexample: with `wordCount = 2` (and no help/debug flags) a
successful run performs two dictionary reads, not one: `choose_word`
re-opens and re-reads `words.txt` on every call. -/
theorem C7_single_read_counterexample :
    (runTrace { words := 2, caps := 0, nums := 0, syms := 0, help := false, debug := false }
      (fun _ => "w") (fun _ => 0) 0).map countReads = some 2 ∧ (2 : Nat) ≠ 1 :=
  ⟨rfl, by decide⟩

/-- C7 amended: on every successful non-help, non-debug run the trace
holds exactly `wordCount` dictionary reads — one per word drawn — and
one final write of the result. -/
theorem C7_reads_per_word (cfg : Config) (ws : Nat → String) (f : Nat → Nat) (fuel : Nat)
    (tr : List IOEvent) (hh : cfg.help = false) (hd : cfg.debug = false)
    (h : runTrace cfg ws f fuel = some tr) :
    countReads tr = cfg.words ∧ countWrites tr = 1 := by
  simp only [runTrace, hh, Bool.false_eq_true, if_false] at h
  rcases hrt : runTokens cfg ws f fuel with _ | pwd
  · rw [hrt] at h; cases h
  · rw [hrt] at h
    have htr : tr = (if cfg.debug then debugLines cfg else []).map IOEvent.printLine
        ++ List.replicate cfg.words IOEvent.readDict
        ++ [IOEvent.printLine (String.join pwd)] := (Option.some_inj.mp h).symm
    rw [hd] at htr
    simp only [Bool.false_eq_true, if_false, List.map_nil, List.nil_append] at htr
    subst htr
    constructor
    · simp [countReads, List.countP_append, List.countP_replicate]
    · simp [countWrites, List.countP_append, List.countP_replicate]

/-- Witness for C7's amended statement at a two-word configuration. -/
theorem C7_reads_per_word_witness :
    countReads [IOEvent.readDict, IOEvent.readDict, IOEvent.printLine "ww"] = 2 ∧
    countWrites [IOEvent.readDict, IOEvent.readDict, IOEvent.printLine "ww"] = 1 :=
  C7_reads_per_word
    { words := 2, caps := 0, nums := 0, syms := 0, help := false, debug := false }
    (fun _ => "w") (fun _ => 0) 0
    [IOEvent.readDict, IOEvent.readDict, IOEvent.printLine "ww"] rfl rfl (by rfl)

/-- C8: a flag given a non-integer parameter yields the
`invalid parameter` error naming that flag (in any parser state, i.e.
whatever flags came before and after), a count flag ending the argument
list yields the `no parameter` error naming it, an unknown flag prints
`invalid arg: <flag>` and yields the `invalid argument` error, and the
concrete invocation `-w abc` makes `main` print a diagnostic containing
`-w` and exit with code 1, producing no passphrase. -/
theorem C8_argument_errors :
    (∀ p ∈ ([("-w", "invalid parameter for option -w"),
             ("--words", "invalid parameter for option -w"),
             ("-c", "invalid parameter for option -c"),
             ("--caps", "invalid parameter for option -c"),
             ("-n", "invalid parameter for option -n"),
             ("--numbers", "invalid parameter for option -n"),
             ("-s", "invalid parameter for option -s"),
             ("--symbols", "invalid parameter for option -s")] : List (String × String)),
      ∀ (cfg : Config) (rest : List String) (bad : String), parseUsize bad = none →
        (newLoop (p.1 :: bad :: rest) cfg).2 = Except.error p.2) ∧
    (∀ p ∈ ([("-w", "no parameter for option -w"),
             ("--words", "no parameter for option -w"),
             ("-c", "no parameter for option -c"),
             ("--caps", "no parameter for option -c"),
             ("-n", "no parameter for option -n"),
             ("--numbers", "no parameter for option -n"),
             ("-s", "no parameter for option -s"),
             ("--symbols", "no parameter for option -s")] : List (String × String)),
      ∀ cfg : Config, (newLoop [p.1] cfg).2 = Except.error p.2) ∧
    (∀ (u : String) (cfg : Config) (rest : List String),
      u ∉ (["-w", "--words", "-c", "--caps", "-n", "--numbers", "-s", "--symbols",
            "-h", "--help", "-d", "--debug"] : List String) →
      newLoop (u :: rest) cfg = (["invalid arg: " ++ u], Except.error "invalid argument")) ∧
    (mainParse ["xkcdpwgen", "-w", "abc"]
        = (["Problem parsing arguments: invalid parameter for option -w"], none) ∧
      mainParseExit ["xkcdpwgen", "-w", "abc"] = 1 ∧
      ∃ pre post : String,
        "Problem parsing arguments: invalid parameter for option -w"
          = pre ++ "-w" ++ post) := by
  refine ⟨?_, ?_, ?_, rfl, rfl,
    "Problem parsing arguments: invalid parameter for option ", "", by decide⟩
  · intro p hp cfg rest bad hbad
    fin_cases hp <;> simp [newLoop, hbad]
  · intro p hp cfg
    fin_cases hp <;> simp [newLoop]
  · intro u cfg rest hu
    simp only [List.mem_cons, List.not_mem_nil, or_false, not_or] at hu
    obtain ⟨h1, h2, h3, h4, h5, h6, h7, h8, h9, h10, h11, h12⟩ := hu
    simp [newLoop.eq_def, h1, h2, h3, h4, h5, h6, h7, h8, h9, h10, h11, h12]

/-- Witness for C8 on each error category. -/
theorem C8_argument_errors_witness :
    (newLoop ["-w", "abc"] Config.init).2
      = Except.error "invalid parameter for option -w" ∧
    (newLoop ["-c"] Config.init).2 = Except.error "no parameter for option -c" ∧
    newLoop ["--xyz"] Config.init
      = (["invalid arg: " ++ "--xyz"], Except.error "invalid argument") := by
  have h := C8_argument_errors
  exact ⟨h.1 ("-w", "invalid parameter for option -w") (by decide) Config.init [] "abc"
      (by decide),
    h.2.1 ("-c", "no parameter for option -c") (by decide) Config.init,
    h.2.2.1 "--xyz" Config.init [] (by decide)⟩

/-- C9: the assembled output is a pure function of the configuration and
the scripted word and random streams: two runs over the same scripts
produce byte-identical output, whatever fuel each was given. -/
theorem C9_deterministic_output (cfg : Config) (ws : Nat → String) (f : Nat → Nat)
    (fuel₁ fuel₂ : Nat) (o₁ o₂ : String)
    (h₁ : runOutput cfg ws f fuel₁ = some o₁)
    (h₂ : runOutput cfg ws f fuel₂ = some o₂) : o₁ = o₂ := by
  simp only [runOutput] at h₁ h₂
  rcases hrt₁ : runTokens cfg ws f fuel₁ with _ | t₁
  · rw [hrt₁] at h₁; cases h₁
  rcases hrt₂ : runTokens cfg ws f fuel₂ with _ | t₂
  · rw [hrt₂] at h₂; cases h₂
  rw [hrt₁] at h₁
  rw [hrt₂] at h₂
  have e₁ : String.join t₁ = o₁ := by simpa using h₁
  have e₂ : String.join t₂ = o₂ := by simpa using h₂
  suffices ht : t₁ = t₂ by rw [← e₁, ← e₂, ht]
  simp only [runTokens] at hrt₁ hrt₂
  rcases hcl₁ : capsLoop f cfg.words fuel₁ 0 cfg.caps (List.replicate cfg.words false)
      (wordPhase ws cfg.words) [] with _ | ⟨k₁, fl₁, p₁, ops₁⟩
  · rw [hcl₁] at hrt₁; cases hrt₁
  rcases hcl₂ : capsLoop f cfg.words fuel₂ 0 cfg.caps (List.replicate cfg.words false)
      (wordPhase ws cfg.words) [] with _ | ⟨k₂, fl₂, p₂, ops₂⟩
  · rw [hcl₂] at hrt₂; cases hrt₂
  have hdet := capsLoop_det f cfg.words fuel₁ fuel₂ _ _ _ _ _ _ _ hcl₁ hcl₂
  simp only [Prod.mk.injEq] at hdet
  obtain ⟨hk, hfl, hp, hops⟩ := hdet
  subst hk; subst hp
  rw [hcl₁] at hrt₁
  rw [hcl₂] at hrt₂
  have ht₁ : (insertLoop f randSymbol cfg.syms
      (insertLoop f randDigit cfg.nums k₁ p₁).1
      (insertLoop f randDigit cfg.nums k₁ p₁).2).2 = t₁ := by simpa using hrt₁
  have ht₂ : (insertLoop f randSymbol cfg.syms
      (insertLoop f randDigit cfg.nums k₁ p₁).1
      (insertLoop f randDigit cfg.nums k₁ p₁).2).2 = t₂ := by simpa using hrt₂
  rw [← ht₁, ← ht₂]

/-- Witness for C9: the spec's end-to-end example run with two different
fuels. -/
theorem C9_deterministic_output_witness :
    ("correctHorsebattery7" : String) = "correctHorsebattery7" :=
  C9_deterministic_output
    { words := 3, caps := 1, nums := 1, syms := 0, help := false, debug := false }
    (fun n => ["correct", "horse", "battery"].getD n "")
    (fun k => [1, 3, 7].getD k 0) 1 5 "correctHorsebattery7" "correctHorsebattery7"
    (by rfl) (by rfl)

/-- C10: a negative integer parameter such as `-3` is rejected exactly
like a non-integer one, because the counts are parsed as unsigned
integers: any parameter starting with `-` fails to parse, each count
flag given `-3` produces its `invalid parameter` error, and the process
exit code is 1. -/
theorem C10_negative_parameters :
    (∀ t : List Char, parseUsize (String.mk ('-' :: t)) = none) ∧
    (∀ p ∈ ([("-w", "invalid parameter for option -w"),
             ("--words", "invalid parameter for option -w"),
             ("-c", "invalid parameter for option -c"),
             ("--caps", "invalid parameter for option -c"),
             ("-n", "invalid parameter for option -n"),
             ("--numbers", "invalid parameter for option -n"),
             ("-s", "invalid parameter for option -s"),
             ("--symbols", "invalid parameter for option -s")] : List (String × String)),
      ∀ (cfg : Config) (rest : List String),
        (newLoop (p.1 :: "-3" :: rest) cfg).2 = Except.error p.2) ∧
    (∀ p ∈ (["-w", "--words", "-c", "--caps", "-n", "--numbers", "-s", "--symbols"] :
        List String),
      mainParseExit ["xkcdpwgen", p, "-3"] = 1) := by
  have hp3 : parseUsize "-3" = none := rfl
  refine ⟨fun t => rfl, ?_, ?_⟩
  · intro p hp cfg rest
    fin_cases hp <;> simp [newLoop, hp3]
  · intro p hp
    fin_cases hp <;> rfl

/-- Witness for C10 on each conjunct. -/
theorem C10_negative_parameters_witness :
    parseUsize (String.mk ('-' :: ['3'])) = none ∧
    (newLoop ["-w", "-3"] Config.init).2
      = Except.error "invalid parameter for option -w" ∧
    mainParseExit ["xkcdpwgen", "-c", "-3"] = 1 := by
  have h := C10_negative_parameters
  exact ⟨h.1 ['3'],
    h.2.1 ("-w", "invalid parameter for option -w") (by decide) Config.init [],
    h.2.2 "-c" (by decide)⟩

end Xkcd
